import Mathlib

/-!
Verification development for the gitingest query-resolution core
(src/gitingest/parse_query.py).

Python strings are modelled as `List Char` (one entry per Unicode code
point).  Character-class predicates (str.isalnum, str.isspace) follow
Python's Unicode semantics; they are encoded exactly for code points
below 0x100 (every concrete string in this repository and in this
development lies in that range), and the general Unicode whitespace
code points are also included.

The mutable global list DEFAULT_IGNORE_PATTERNS and the in-place list
operations (copy / extend / remove) are modelled with an explicit heap:
a heap is a list of list-objects, a Python list variable is a reference
(an index into the heap), and mutation is an update at that index.
Functions with side effects take and return the heap.

The value str(uuid.uuid4()) is nondeterministic; it is modelled as an
extra parameter `uid` supplied by the caller.  Filesystem access
(os.path.exists, os.path.isdir, reading file lines) and
os.path.abspath (which depends on the process working directory) are
modelled by an environment record `Env`.
-/

/-- Python str.isspace for a single code point: true on 0x09-0x0D,
0x1C-0x1F, space, 0x85, 0xA0 and the Unicode space code points. -/
def pyIsSpace (c : Char) : Bool :=
  let n := c.toNat
  (0x9 ≤ n && n ≤ 0xD) || (0x1C ≤ n && n ≤ 0x1F) || n = 0x20 ||
  n = 0x85 || n = 0xA0 || n = 0x1680 || (0x2000 ≤ n && n ≤ 0x200A) ||
  n = 0x2028 || n = 0x2029 || n = 0x202F || n = 0x205F || n = 0x3000

/-- ASCII part of Python str.isalnum: decimal digits and Latin letters. -/
def asciiIsAlnum (c : Char) : Bool :=
  let n := c.toNat
  (0x30 ≤ n && n ≤ 0x39) || (0x41 ≤ n && n ≤ 0x5A) || (0x61 ≤ n && n ≤ 0x7A)

/-- Latin-1 (0x80-0xFF) part of Python str.isalnum: the feminine and
masculine ordinal indicators, superscript digits, micro sign, vulgar
fractions, and the accented letters 0xC0-0xFF minus the multiplication
and division signs. -/
def latin1IsAlnum (c : Char) : Bool :=
  let n := c.toNat
  n = 0xAA || n = 0xB2 || n = 0xB3 || n = 0xB5 || n = 0xB9 || n = 0xBA ||
  n = 0xBC || n = 0xBD || n = 0xBE ||
  (0xC0 ≤ n && n ≤ 0xFF && !(n = 0xD7) && !(n = 0xF7))

/-- Python str.isalnum for one code point (exact below 0x100). -/
def pyIsAlnum (c : Char) : Bool :=
  asciiIsAlnum c || latin1IsAlnum c

/-- Characters accepted by the validation in parse_patterns:
the Python test is  c.isalnum() or c in "-_./+*". -/
def pyAllowedChar (c : Char) : Bool :=
  pyIsAlnum c || c ∈ ['-', '_', '.', '/', '+', '*']

/-- Character class written in the specification: [A-Za-z0-9-_./+*].
This is the spec's wording, kept separate from the code's predicate
pyAllowedChar for comparison. -/
def specClassChar (c : Char) : Bool :=
  asciiIsAlnum c || c ∈ ['-', '_', '.', '/', '+', '*']

/-- Hexadecimal digits as enumerated in parse_url:
the Python test is  c in '0123456789abcdefABCDEF'. -/
def hexChars : List Char := ("0123456789abcdefABCDEF").toList

/-- Python str.strip() with no argument: drop whitespace from both ends. -/
def pyStrip (l : List Char) : List Char :=
  ((l.dropWhile pyIsSpace).reverse.dropWhile pyIsSpace).reverse

/-- Python str.lstrip(c) for a one-character argument. -/
def pyLstrip (c : Char) (l : List Char) : List Char :=
  l.dropWhile (fun x => x = c)

/-- Python str.rstrip(c) for a one-character argument. -/
def pyRstrip (c : Char) (l : List Char) : List Char :=
  (l.reverse.dropWhile (fun x => x = c)).reverse

/-- Python str.split(sep) for a one-character separator: keeps empty
fields, and yields one (empty) field on the empty string. -/
def splitChar (c : Char) : List Char → List (List Char)
  | [] => [[]]
  | x :: xs =>
    let r := splitChar c xs
    if x = c then [] :: r
    else (x :: r.headD []) :: r.tail

/-- Python substring test  needle in hay  for strings. -/
def pyInStr (needle : List Char) : List Char → Bool
  | [] => needle.isEmpty
  | x :: xs => needle.isPrefixOf (x :: xs) || pyInStr needle xs

/-- Python os.path.basename for POSIX paths: the part after the last
slash. -/
def pyBasename (p : List Char) : List Char :=
  (p.reverse.takeWhile (fun c => !(c = '/'))).reverse

/-- Python os.path.dirname for POSIX paths: the part before the last
slash, with trailing slashes removed unless the result is all slashes. -/
def pyDirname (p : List Char) : List Char :=
  let head := (p.reverse.dropWhile (fun c => !(c = '/'))).reverse
  if head.isEmpty then []
  else if head.all (fun c => c = '/') then head
  else pyRstrip '/' head

/-- Python os.path.join for POSIX paths and two arguments. -/
def pyJoin (a b : List Char) : List Char :=
  if b.head? = some '/' then b
  else if a.isEmpty || a.getLast? = some '/' then a ++ b
  else a ++ '/' :: b

/-- Module constant DEFAULT_IGNORE_PATTERNS, transcribed in source
order.  Note that the entry *.swp occurs twice (once in the editor
group and once in the temporary-file group). -/
def DEFAULT_IGNORE_PATTERNS : List (List Char) :=
  (["*.pyc", "*.pyo", "*.pyd", "__pycache__", ".pytest_cache", ".coverage",
    ".tox", ".nox", ".mypy_cache", ".ruff_cache", ".hypothesis",
    "poetry.lock", "Pipfile.lock",
    "node_modules", "bower_components", "package-lock.json", "yarn.lock",
    ".npm", ".yarn", ".pnpm-store",
    ".git", ".svn", ".hg", ".gitignore", ".gitattributes", ".gitmodules",
    "*.svg", "*.png", "*.jpg", "*.jpeg", "*.gif", "*.ico", "*.pdf",
    "*.mov", "*.mp4", "*.mp3", "*.wav",
    "venv", ".venv", "env", ".env", "virtualenv",
    ".idea", ".vscode", ".vs", "*.swp", "*.swo", "*.swn",
    ".settings", ".project", ".classpath", "*.sublime-*",
    "*.log", "*.bak", "*.swp", "*.tmp", "*.temp",
    ".cache", ".sass-cache", ".eslintcache",
    ".DS_Store", "Thumbs.db", "desktop.ini",
    "build", "dist", "target", "out",
    "*.egg-info", "*.egg", "*.whl",
    "*.so", "*.dylib", "*.dll", "*.class",
    "site-packages", ".docusaurus", ".next", ".nuxt",
    "*.min.js", "*.min.css",
    "*.map",
    ".terraform", "*.tfstate*",
    "vendor/"]).map String.toList

/-- Module constant TMP_BASE_PATH. -/
def TMP_BASE_PATH : List Char := ("../tmp").toList

/-- Characters of the literal scheme string used by parse_url. -/
def httpsL : List Char := ['h', 't', 't', 'p', 's', ':', '/', '/']

/-- Errors raised by the module.  Python raises ValueError in both
places; invalidPattern carries the offending token that the message
interpolates. -/
inductive PyErr where
  | invalidURL : PyErr
  | invalidPattern : List Char → PyErr
deriving DecidableEq, Repr

/-- Python value of the include_patterns key of the result dict: the
original argument (None or a falsy string/list) when no include input
was given, or the parsed list. -/
inductive PyIncludeVal where
  | vNone : PyIncludeVal
  | vStr : List Char → PyIncludeVal
  | vList : List (List Char) → PyIncludeVal
deriving DecidableEq, Repr

/-- Query dict produced by parse_url / parse_path / parse_query.
parse_path's dict omits the remote-only keys; those are modelled as
none.  The keys max_file_size, ignore_patterns and include_patterns
are added by parse_query; the placeholder values 0 / [] / vNone used
before that point are always overwritten. -/
structure Query where
  user_name : Option (List Char)
  repo_name : Option (List Char)
  type : Option (List Char)
  branch : Option (List Char)
  commit : Option (List Char)
  subpath : List Char
  local_path : List Char
  url : Option (List Char)
  slug : List Char
  qid : List Char
  max_file_size : Int
  ignore_patterns : List (List Char)
  include_patterns : PyIncludeVal
deriving DecidableEq, Repr

/-- Query value with every field empty, used only as a getD default in
closed witness statements. -/
def emptyQuery : Query :=
  { user_name := none, repo_name := none, type := none, branch := none,
    commit := none, subpath := [], local_path := [], url := none,
    slug := [], qid := [], max_file_size := 0, ignore_patterns := [],
    include_patterns := PyIncludeVal.vNone }

/-- Trimming and scheme-prepending prologue of parse_url:
url.split(" ")[0], then prepend https:// unless already present. -/
def prepUrl (u : List Char) : List Char :=
  let u1 := (splitChar ' ' u).headD []
  if httpsL.isPrefixOf u1 then u1 else httpsL ++ u1

/-- Path segments of a locator as parse_url computes them:
url_parts[3:] after splitting the prepared URL on slashes. -/
def urlPathParts (u : List Char) : List (List Char) :=
  (splitChar '/' (prepUrl u)).drop 3

/-- Domain of a locator as parse_url computes it: url_parts[2].  The
prepared URL always starts with https:// so index 2 exists. -/
def urlDomain (u : List Char) : List Char :=
  (splitChar '/' (prepUrl u)).getD 2 []

/-- Translation of parse_url.  Raising ValueError is modelled as
Except.error; on the error path no dict is produced at all. -/
def parse_url (uid : List Char) (url0 : List Char) : Except PyErr Query :=
  let domain := urlDomain url0
  let pp := urlPathParts url0
  if pp.length < 2 then Except.error PyErr.invalidURL
  else
    let user := pp.getD 0 []
    let repo := pp.getD 1 []
    let urlv := httpsL ++ domain ++ '/' :: (user ++ '/' :: repo)
    let slugv := user ++ '-' :: repo
    let lp := TMP_BASE_PATH ++ '/' :: (uid ++ '/' :: slugv)
    if 3 < pp.length then
      let br := pp.getD 3 []
      Except.ok
        { user_name := some user, repo_name := some repo,
          type := some (pp.getD 2 []), branch := some br,
          commit :=
            if br.length = 40 ∧ ∀ c ∈ br, c ∈ hexChars then some br else none,
          subpath := '/' :: List.intercalate ['/'] (pp.drop 4),
          local_path := lp, url := some urlv, slug := slugv, qid := uid,
          max_file_size := 0, ignore_patterns := [],
          include_patterns := PyIncludeVal.vNone }
    else
      Except.ok
        { user_name := some user, repo_name := some repo,
          type := none, branch := none, commit := none,
          subpath := ['/'],
          local_path := lp, url := some urlv, slug := slugv, qid := uid,
          max_file_size := 0, ignore_patterns := [],
          include_patterns := PyIncludeVal.vNone }

/-- Translation of normalize_pattern: strip whitespace, strip leading
os.sep (the POSIX separator, a slash), and append a star when the
pattern ends with the separator. -/
def normalize_pattern (p : List Char) : List Char :=
  let p1 := pyStrip p
  let p2 := pyLstrip '/' p1
  if p2.getLast? = some '/' then p2 ++ ['*'] else p2

/-- Argument of parse_patterns: Union[List[str], str]. -/
inductive PatInput where
  | ofList : List (List Char) → PatInput
  | ofStr : List Char → PatInput
deriving DecidableEq, Repr

/-- Joining prologue of parse_patterns: a list argument is joined with
commas, a string argument is kept. -/
def joinPat : PatInput → List Char
  | PatInput.ofList l => List.intercalate [','] l
  | PatInput.ofStr s => s

/-- Translation of parse_patterns: split on commas, raise ValueError at
the first token whose stripped form has a character that is neither
Python-alphanumeric nor in -_./+*, otherwise normalize every token.
List.find? returns the first failing token, matching the fail-fast
Python loop. -/
def parse_patterns (pat : PatInput) : Except PyErr (List (List Char)) :=
  let toks := splitChar ',' (joinPat pat)
  match toks.find? (fun p => !((pyStrip p).all pyAllowedChar)) with
  | some p => Except.error (PyErr.invalidPattern p)
  | none => Except.ok (toks.map normalize_pattern)

/-- Purely functional content of override_ignore_patterns: for each
include pattern in order, if it occurs in the ignore list, remove its
first occurrence (Python list.remove removes only the first). -/
def removeFirstEach (l : List (List Char)) (inc : List (List Char)) :
    List (List Char) :=
  inc.foldl (fun acc p => if p ∈ acc then acc.erase p else acc) l

/-- Resolved ignore set in the specification's wording: exact
string-match set subtraction, removing every occurrence equal to some
include pattern.  Kept separate from the code's removeFirstEach for
comparison. -/
def specResolvedIgnore (base : List (List Char)) (inc : List (List Char)) :
    List (List Char) :=
  base.filter (fun p => !(inc.contains p))

/-- Environment for filesystem access and os.path.abspath.
fs_exists models os.path.exists, fs_isdir models os.path.isdir, and
fs_lines gives the lines of an existing file (newlines may be kept;
every line is stripped before use, as in the source).  abspath models
os.path.abspath, which depends on the process working directory. -/
structure Env where
  fs_exists : List Char → Bool
  fs_isdir : List Char → Bool
  fs_lines : List Char → List (List Char)
  abspath : List Char → List Char

/-- Translation of parse_path.  The Python dict has only the keys
local_path, slug, subpath, id and url; the remote-only keys are
modelled as none and the keys that parse_query adds later as
placeholders. -/
def parse_path (env : Env) (uid : List Char) (path : List Char) : Query :=
  { user_name := none, repo_name := none, type := none, branch := none,
    commit := none,
    subpath := ['/'],
    local_path := env.abspath path,
    url := none,
    slug := pyBasename (pyDirname path) ++ '/' :: pyBasename path,
    qid := uid,
    max_file_size := 0, ignore_patterns := [],
    include_patterns := PyIncludeVal.vNone }

/-- Translation of parse_gitignore: empty when the file does not
exist; otherwise strip each line, skip empty lines and lines starting
with the comment character, give lines that name an existing directory
(relative to the file's directory via os.path.join) a single trailing
slash, and collect in order. -/
def parse_gitignore (env : Env) (path : List Char) : List (List Char) :=
  if env.fs_exists path then
    (env.fs_lines path).foldl
      (fun acc line0 =>
        let line := pyStrip line0
        if !line.isEmpty && !(line.head? = some '#') then
          acc ++
            [if env.fs_isdir (pyJoin (pyDirname path) line) then
               pyRstrip '/' line ++ ['/']
             else line]
        else acc)
      []
  else []

/-- One-line characterisation of what parse_gitignore does to a single
raw line, used to state its contract as a filterMap. -/
def gitignoreLineSpec (env : Env) (path : List Char) (line0 : List Char) :
    Option (List Char) :=
  let line := pyStrip line0
  if line.isEmpty || line.head? = some '#' then none
  else some
    (if env.fs_isdir (pyJoin (pyDirname path) line) then
       pyRstrip '/' line ++ ['/']
     else line)

/-- Heap of Python list objects: a reference is an index. -/
abbrev Heap := List (List (List Char))

/-- Contents of the object a reference points to. -/
def heapGet (h : Heap) (r : Nat) : List (List Char) := h.getD r []

/-- In-place overwrite of the object a reference points to. -/
def heapSet (h : Heap) (r : Nat) (v : List (List Char)) : Heap := h.set r v

/-- Allocation of a fresh list object (list.copy allocates). -/
def heapAlloc (h : Heap) (v : List (List Char)) : Heap × Nat :=
  (h ++ [v], h.length)

/-- In-place list.extend. -/
def heapExtend (h : Heap) (r : Nat) (xs : List (List Char)) : Heap :=
  heapSet h r (heapGet h r ++ xs)

/-- Translation of override_ignore_patterns: the argument list is a
reference; for each include pattern, if it occurs in the referenced
list, list.remove drops its first occurrence in place.  The Python
function returns the same (mutated) list object, here the same
reference, so only the heap is returned. -/
def override_ignore_patterns (h : Heap) (r : Nat) (inc : List (List Char)) :
    Heap :=
  inc.foldl
    (fun h' p =>
      if p ∈ heapGet h' r then heapSet h' r ((heapGet h' r).erase p) else h')
    h

/-- Python truthiness of the optional pattern arguments: None, the
empty string and the empty list are falsy. -/
def pyTruthy : Option PatInput → Bool
  | none => false
  | some (PatInput.ofList l) => !l.isEmpty
  | some (PatInput.ofStr s) => !s.isEmpty

/-- Pattern argument carried by a truthy optional value.  The none
case is unreachable because pyTruthy none is false; the default keeps
the function total. -/
def patVal : Option PatInput → PatInput
  | none => PatInput.ofStr []
  | some p => p

/-- Python value stored under include_patterns when the include
argument is falsy: the argument itself, unparsed. -/
def rawIncludeVal : Option PatInput → PyIncludeVal
  | none => PyIncludeVal.vNone
  | some (PatInput.ofList l) => PyIncludeVal.vList l
  | some (PatInput.ofStr s) => PyIncludeVal.vStr s

/-- Name of the ignore file joined onto the local path. -/
def gitignoreName : List Char := (".gitignore").toList

/-- Include-handling tail of the pattern resolution (the two lines of
parse_query guarded by  if include_patterns), applied to the current
heap: parse and validate the include input when truthy and remove its
patterns in place from the list at fref, or keep the raw falsy value. -/
def inclStep (base : Query) (msz : Int) (copt : Option PatInput)
    (fref : Nat) (hcur : Heap) : Heap × Except PyErr Query :=
  if pyTruthy copt then
    match parse_patterns (patVal copt) with
    | Except.error e => (hcur, Except.error e)
    | Except.ok incs =>
      let h4 := override_ignore_patterns hcur fref incs
      (h4, Except.ok
        { base with max_file_size := msz,
                    ignore_patterns := heapGet h4 fref,
                    include_patterns := PyIncludeVal.vList incs })
  else
    (hcur, Except.ok
      { base with max_file_size := msz,
                  ignore_patterns := heapGet hcur fref,
                  include_patterns := rawIncludeVal copt })

/-- Pattern-resolution part of the effective parse_query (the second
definition in the module, which supersedes the first): copy the
defaults, extend with .gitignore patterns when the file exists, extend
with validated user ignore patterns, and apply the include step.
dref is the reference of the global default list; list.copy allocates
a fresh object (at reference h.length), so every later mutation
happens at the fresh reference.  Print statements are diagnostics and
are not modelled. -/
def patternStep (env : Env) (h : Heap) (dref : Nat) (base : Query)
    (msz : Int) (iopt copt : Option PatInput) : Heap × Except PyErr Query :=
  let fref := h.length
  let h1 := (heapAlloc h (heapGet h dref)).1
  let gipath := pyJoin base.local_path gitignoreName
  let h2 :=
    if env.fs_exists gipath then
      heapExtend h1 fref (parse_gitignore env gipath)
    else h1
  if pyTruthy iopt then
    match parse_patterns (patVal iopt) with
    | Except.error e => (h2, Except.error e)
    | Except.ok igns => inclStep base msz copt fref (heapExtend h2 fref igns)
  else inclStep base msz copt fref h2

/-- Translation of the effective parse_query (second definition):
from_web selects parse_url or parse_path with no inspection of the
source string, then the pattern step runs.  A raised ValueError
propagates; the heap at that moment is returned alongside. -/
def parse_query (env : Env) (h : Heap) (dref : Nat) (from_web : Bool)
    (source : List Char) (uid : List Char) (msz : Int)
    (iopt copt : Option PatInput) : Heap × Except PyErr Query :=
  match (if from_web then parse_url uid source
         else Except.ok (parse_path env uid source) : Except PyErr Query) with
  | Except.error e => (h, Except.error e)
  | Except.ok base => patternStep env h dref base msz iopt copt

/-- Locator dispatch of the first, superseded definition of
parse_query (lines 172-179): with from_web unset the source is parsed
as a URL when it starts with https:// or contains github.com, else as
a local path. -/
def parse_query_v1_locator (env : Env) (uid : List Char) (from_web : Bool)
    (source : List Char) : Except PyErr Query :=
  if from_web then parse_url uid source
  else if httpsL.isPrefixOf source || pyInStr (("github.com").toList) source
  then parse_url uid source
  else Except.ok (parse_path env uid source)

/-- Gitignore contribution that parse_query accumulates for a query:
the parse_gitignore output at local_path/.gitignore when that file
exists, else nothing. -/
def gitignoreContribOf (env : Env) (q : Query) : List (List Char) :=
  if env.fs_exists (pyJoin q.local_path gitignoreName) then
    parse_gitignore env (pyJoin q.local_path gitignoreName)
  else []

/-- Concrete environment with an empty filesystem and identity
abspath, used in closed counterexample and witness statements. -/
def env0 : Env :=
  { fs_exists := fun _ => false, fs_isdir := fun _ => false,
    fs_lines := fun _ => [], abspath := fun s => s }

/-! ### Helper lemmas about the string model -/

theorem splitChar_ne_nil (c : Char) (l : List Char) : splitChar c l ≠ [] := by
  cases l with
  | nil => simp [splitChar]
  | cons x xs =>
    simp only [splitChar]
    split <;> simp

theorem splitChar_not_mem {c : Char} {l : List Char} (h : c ∉ l) :
    splitChar c l = [l] := by
  induction l with
  | nil => rfl
  | cons x xs ih =>
    simp only [List.mem_cons, not_or] at h
    have hx : ¬ x = c := fun hh => h.1 hh.symm
    simp [splitChar, hx, ih h.2]

theorem splitChar_append_cons {c : Char} {a : List Char} (b : List Char)
    (h : c ∉ a) : splitChar c (a ++ c :: b) = a :: splitChar c b := by
  induction a with
  | nil => simp [splitChar]
  | cons x xs ih =>
    simp only [List.mem_cons, not_or] at h
    have hx : ¬ x = c := fun hh => h.1 hh.symm
    have hr := ih h.2
    simp [splitChar, hx, hr]

theorem dropWhile_eq_self_of_all {p : Char → Bool} {l : List Char}
    (h : ∀ x ∈ l, p x = false) : l.dropWhile p = l := by
  cases l with
  | nil => rfl
  | cons x xs => simp [List.dropWhile_cons, h x (by simp)]

theorem head_dropWhile_false {p : Char → Bool} {l : List Char} {a : Char}
    (h : (l.dropWhile p).head? = some a) : p a = false := by
  induction l with
  | nil => simp at h
  | cons x xs ih =>
    rw [List.dropWhile_cons] at h
    by_cases hx : p x = true
    · exact ih (by simpa [hx] using h)
    · rw [if_neg hx] at h
      simp only [List.head?_cons, Option.some.injEq] at h
      subst h
      exact Bool.eq_false_iff.mpr hx

theorem pyStrip_eq_self {l : List Char} (h : ∀ x ∈ l, pyIsSpace x = false) :
    pyStrip l = l := by
  unfold pyStrip
  rw [dropWhile_eq_self_of_all h,
    dropWhile_eq_self_of_all (fun x hx => h x (List.mem_reverse.mp hx)),
    List.reverse_reverse]

theorem pyAllowedChar_not_space {c : Char} (h : pyAllowedChar c = true) :
    pyIsSpace c = false := by
  have hm : pyIsAlnum c = true ∨ c ∈ ['-', '_', '.', '/', '+', '*'] := by
    simpa [pyAllowedChar] using h
  rcases hm with hm | hm
  · rw [Bool.eq_false_iff]
    intro hs
    simp only [pyIsSpace, Bool.or_eq_true, Bool.and_eq_true,
      decide_eq_true_eq] at hs
    simp only [pyIsAlnum, asciiIsAlnum, latin1IsAlnum, Bool.or_eq_true,
      Bool.and_eq_true, decide_eq_true_eq, Bool.not_eq_true',
      decide_eq_false_iff_not] at hm
    omega
  · fin_cases hm <;> decide

/-! ### Claims about parse_url -/

/-- Trimming step as the specification words it: cut the string at
the first whitespace character (any of Python str.isspace).  Kept
separate from the code's prepUrl, which cuts only at a space
(url.split applied to a one-space separator), for comparison. -/
def specWsTrim (u : List Char) : List Char :=
  u.takeWhile (fun c => !pyIsSpace c)

/-- Path segments that the claim's preprocessing predicts: trim at the
first whitespace, prepend the scheme when missing, split on slashes,
drop the three leading segments. -/
def specWsPathParts (u : List Char) : List (List Char) :=
  (splitChar '/'
    (if httpsL.isPrefixOf (specWsTrim u) then specWsTrim u
     else httpsL ++ specWsTrim u)).drop 3

/-- Claim C4 (amended): parse_url raises (InvalidLocatorError, a
ValueError in the source) if and only if, after trimming at the first
SPACE character — not at the first whitespace, as the claim states;
see the counterexample — and prepending the scheme when missing,
fewer than 2 path segments follow the domain; with 2 or more segments
it never raises.  On failure the Except carries no descriptor at
all. -/
theorem c4_invalid_locator_iff (uid u : List Char) :
    (parse_url uid u).isOk = true ↔ 2 ≤ (urlPathParts u).length := by
  unfold parse_url
  by_cases hlt : (urlPathParts u).length < 2
  · rw [if_pos hlt]
    simp only [Except.isOk, Except.toBool]
    constructor
    · intro hh; exact absurd hh (by simp)
    · intro hh; omega
  · rw [if_neg hlt]
    constructor
    · intro _; omega
    · intro _
      split <;> rfl

/-- Counterexample to claim C4 as stated: the code trims only at the
first space, not at the first whitespace.  On the input
github.com/foo(tab)junk/extra the claim's preprocessing (trim at the
tab) leaves a single path segment, so the claim requires a raise, yet
parse_url keeps the whole string (no space present), finds two path
segments (foo followed by a tab and junk, then extra) and returns a
descriptor. -/
theorem c4_counterexample :
    (parse_url (("u1").toList)
        (("github.com/foo\tjunk/extra").toList)).isOk = true ∧
    (specWsPathParts (("github.com/foo\tjunk/extra").toList)).length < 2 ∧
    (urlPathParts (("github.com/foo\tjunk/extra").toList)).length = 2 := by
  decide

/-- Claim C5: for a successfully parsed remote locator, the commit
field holds b exactly when the 4th path segment is b, b has length 40
and every character of b is a hexadecimal digit of either case; and
whenever commit is set it equals branch. -/
theorem c5_commit_iff (uid u : List Char) (q : Query)
    (hok : parse_url uid u = Except.ok q) :
    (∀ b : List Char,
       q.commit = some b ↔
         (urlPathParts u)[3]? = some b ∧ b.length = 40 ∧ ∀ c ∈ b, c ∈ hexChars) ∧
    (∀ b : List Char, q.commit = some b → q.branch = some b) := by
  unfold parse_url at hok
  by_cases hlt : (urlPathParts u).length < 2
  · rw [if_pos hlt] at hok
    exact absurd hok (by simp)
  · rw [if_neg hlt] at hok
    by_cases h3 : 3 < (urlPathParts u).length
    · rw [if_pos h3] at hok
      injection hok with hq
      subst hq
      have hget : (urlPathParts u)[3]? = some ((urlPathParts u).getD 3 []) := by
        rw [List.getElem?_eq_getElem h3, List.getD_eq_getElem _ _ h3]
      constructor
      · intro b
        simp only []
        by_cases hc : ((urlPathParts u).getD 3 []).length = 40 ∧
            ∀ c ∈ (urlPathParts u).getD 3 [], c ∈ hexChars
        · rw [if_pos hc]
          constructor
          · intro hb
            have hb' : (urlPathParts u).getD 3 [] = b := by
              simpa using hb
            subst hb'
            exact ⟨hget, hc.1, hc.2⟩
          · intro hb
            have hb2 : (urlPathParts u).getD 3 [] = b := by
              have := hget.symm.trans hb.1
              simpa using this
            simp [hb2.symm]
        · rw [if_neg hc]
          constructor
          · intro hb; exact absurd hb (by simp)
          · intro hb
            have hb2 : (urlPathParts u).getD 3 [] = b := by
              have := hget.symm.trans hb.1
              simpa using this
            subst hb2
            exact absurd ⟨hb.2.1, hb.2.2⟩ hc
      · intro b hb
        by_cases hc : ((urlPathParts u).getD 3 []).length = 40 ∧
            ∀ c ∈ (urlPathParts u).getD 3 [], c ∈ hexChars
        · rw [if_pos hc] at hb
          simpa using hb
        · rw [if_neg hc] at hb
          exact absurd hb (by simp)
    · rw [if_neg h3] at hok
      injection hok with hq
      subst hq
      have hnone : (urlPathParts u)[3]? = none := by
        rw [List.getElem?_eq_none]
        omega
      constructor
      · intro b
        simp [hnone]
      · intro b hb
        exact absurd hb (by simp)

/-- Hexadecimal 40-character reference used in the c5 witness. -/
def c5hex : List Char := ("0123456789abcdef0123456789ABCDEF01234567").toList

/-- Locator used in the c5 witness. -/
def c5url : List Char :=
  ("github.com/foo/bar/commit/0123456789abcdef0123456789ABCDEF01234567").toList

/-- Query computed by parse_url in the c5 witness. -/
def c5q : Query := (parse_url (("u1").toList) c5url).toOption.getD emptyQuery

/-- Witness for c5_commit_iff at a concrete 40-character mixed-case
hexadecimal 4th segment: commit is set and equals branch. -/
theorem c5_commit_iff_witness : c5q.commit = some c5hex ∧ c5q.branch = some c5hex := by
  have h := c5_commit_iff (("u1").toList) c5url c5q (by rfl)
  have hc : c5q.commit = some c5hex :=
    (h.1 c5hex).mpr ⟨by decide, by decide, by decide⟩
  exact ⟨hc, h.2 c5hex hc⟩

/-- Claim C6 (amended): parse_url records the 3rd path segment as
ref_type and the 4th as branch only when a 4th segment exists
(len(path_parts) > 3); a locator with exactly 3 path segments leaves
both unset. -/
theorem c6_ref_type_amended (uid u : List Char) (q : Query)
    (hok : parse_url uid u = Except.ok q) :
    (3 < (urlPathParts u).length →
       q.type = some ((urlPathParts u).getD 2 []) ∧
       q.branch = some ((urlPathParts u).getD 3 [])) ∧
    ((urlPathParts u).length ≤ 3 → q.type = none ∧ q.branch = none) := by
  unfold parse_url at hok
  by_cases hlt : (urlPathParts u).length < 2
  · rw [if_pos hlt] at hok
    exact absurd hok (by simp)
  · rw [if_neg hlt] at hok
    by_cases h3 : 3 < (urlPathParts u).length
    · rw [if_pos h3] at hok
      injection hok with hq
      subst hq
      exact ⟨fun _ => ⟨rfl, rfl⟩, fun hle => absurd h3 (by omega)⟩
    · rw [if_neg h3] at hok
      injection hok with hq
      subst hq
      exact ⟨fun hgt => absurd hgt h3, fun _ => ⟨rfl, rfl⟩⟩

/-- Witness for c6_ref_type_amended at a concrete locator with 5 path
segments: the 3rd segment is the ref type and the 4th the branch. -/
theorem c6_ref_type_amended_witness :
    ((parse_url (("u1").toList) (("github.com/foo/bar/tree/main/src").toList)).toOption.getD
        emptyQuery).type = some (("tree").toList) ∧
    ((parse_url (("u1").toList) (("github.com/foo/bar/tree/main/src").toList)).toOption.getD
        emptyQuery).branch = some (("main").toList) := by
  have h := (c6_ref_type_amended (("u1").toList)
    (("github.com/foo/bar/tree/main/src").toList)
    ((parse_url (("u1").toList) (("github.com/foo/bar/tree/main/src").toList)).toOption.getD
        emptyQuery) (by rfl)).1 (by decide)
  exact ⟨h.1.trans (by decide), h.2.trans (by decide)⟩

/-- Counterexample to claim C6 as stated: the locator
https://github.com/foo/bar/tree has a 3rd path segment (tree), yet the
parsed descriptor leaves ref_type (and branch) unset, because the
source guards with len(path_parts) > 3. -/
theorem c6_counterexample :
    ((parse_url (("u1").toList) (("https://github.com/foo/bar/tree").toList)).toOption.map
        Query.type) = some none ∧
    (urlPathParts (("https://github.com/foo/bar/tree").toList)).length = 3 := by
  decide

/-- Canonical two-segment remote locator without scheme, used to state
claim C3. -/
def plainLoc (domain user repo : List Char) : List Char :=
  domain ++ '/' :: (user ++ '/' :: repo)

/-- Claim C3 (amended): parse_url yields the canonical
https-domain-user-repo url exactly for inputs that carry no scheme or
already carry the https scheme; the two forms parse identically.  A
different scheme such as http:// is not stripped (see the
counterexample): the https prefix is prepended to the whole string. -/
theorem c3_https_amended (uid domain user repo : List Char)
    (hd1 : '/' ∉ domain) (hd2 : ' ' ∉ domain)
    (hu1 : '/' ∉ user) (hu2 : ' ' ∉ user)
    (hr1 : '/' ∉ repo) (hr2 : ' ' ∉ repo)
    (hns : httpsL.isPrefixOf (plainLoc domain user repo) = false) :
    parse_url uid (plainLoc domain user repo) =
      parse_url uid (httpsL ++ plainLoc domain user repo) ∧
    ∃ q : Query,
      parse_url uid (plainLoc domain user repo) = Except.ok q ∧
      q.url = some (httpsL ++ plainLoc domain user repo) ∧
      q.user_name = some user ∧ q.repo_name = some repo := by
  have hsp : ' ' ∉ plainLoc domain user repo := by
    simp only [plainLoc, List.mem_append, List.mem_cons, not_or]
    exact ⟨hd2, by decide, hu2, by decide, hr2⟩
  have hsp2 : ' ' ∉ httpsL ++ plainLoc domain user repo := by
    simp only [List.mem_append, not_or]
    exact ⟨by decide, hsp⟩
  have hprep1 : prepUrl (plainLoc domain user repo) =
      httpsL ++ plainLoc domain user repo := by
    unfold prepUrl
    rw [splitChar_not_mem hsp]
    simp [hns]
  have hpre : httpsL.isPrefixOf (httpsL ++ plainLoc domain user repo) = true :=
    List.isPrefixOf_iff_prefix.mpr (List.prefix_append _ _)
  have hprep2 : prepUrl (httpsL ++ plainLoc domain user repo) =
      httpsL ++ plainLoc domain user repo := by
    unfold prepUrl
    rw [splitChar_not_mem hsp2]
    simp [hpre]
  have hsplit : splitChar '/' (httpsL ++ plainLoc domain user repo) =
      ['h', 't', 't', 'p', 's', ':'] :: [] :: domain :: user :: [repo] := by
    have e1 : httpsL ++ plainLoc domain user repo =
        ['h', 't', 't', 'p', 's', ':'] ++
          '/' :: ('/' :: plainLoc domain user repo) := rfl
    rw [e1, splitChar_append_cons _ (by decide)]
    have e2 : splitChar '/' ('/' :: plainLoc domain user repo) =
        [] :: splitChar '/' (plainLoc domain user repo) := by
      simp [splitChar]
    rw [e2,
      show plainLoc domain user repo = domain ++ '/' :: (user ++ '/' :: repo)
        from rfl,
      splitChar_append_cons _ hd1, splitChar_append_cons _ hu1,
      splitChar_not_mem hr1]
  have hdom : urlDomain (plainLoc domain user repo) = domain := by
    unfold urlDomain
    rw [hprep1, hsplit]
    rfl
  have hpp : urlPathParts (plainLoc domain user repo) = [user, repo] := by
    unfold urlPathParts
    rw [hprep1, hsplit]
    rfl
  have heq : parse_url uid (plainLoc domain user repo) =
      parse_url uid (httpsL ++ plainLoc domain user repo) := by
    unfold parse_url urlDomain urlPathParts
    rw [hprep1, hprep2]
  refine ⟨heq, ?_⟩
  have hres : parse_url uid (plainLoc domain user repo) = Except.ok
      { user_name := some user, repo_name := some repo, type := none,
        branch := none, commit := none, subpath := ['/'],
        local_path := TMP_BASE_PATH ++ '/' :: (uid ++ '/' :: (user ++ '-' :: repo)),
        url := some (httpsL ++ domain ++ '/' :: (user ++ '/' :: repo)),
        slug := user ++ '-' :: repo, qid := uid,
        max_file_size := 0, ignore_patterns := [],
        include_patterns := PyIncludeVal.vNone } := by
    unfold parse_url
    rw [hdom, hpp]
    norm_num
  exact ⟨_, hres, rfl, rfl, rfl⟩

/-- Witness for c3_https_amended at github.com/foo/bar: the scheme-less
and https forms parse identically. -/
theorem c3_https_amended_witness :
    parse_url (("u1").toList)
        (plainLoc (("github.com").toList) (("foo").toList) (("bar").toList)) =
      parse_url (("u1").toList)
        (httpsL ++
          plainLoc (("github.com").toList) (("foo").toList) (("bar").toList)) :=
  (c3_https_amended (("u1").toList) (("github.com").toList) (("foo").toList)
    (("bar").toList) (by decide) (by decide) (by decide) (by decide) (by decide)
    (by decide) (by decide)).1

/-- Counterexample to claim C3 as stated: for the http-scheme input
http://github.com/foo/bar the url field is
https://http://github.com — the http scheme is folded into the domain
position instead of being normalized away, so the url is not
https://github.com/foo/bar. -/
theorem c3_counterexample :
    ((parse_url (("u1").toList) (("http://github.com/foo/bar").toList)).toOption.map
        Query.url) = some (some (("https://http://github.com").toList)) ∧
    ¬ (("https://http://github.com").toList = ("https://github.com/foo/bar").toList) := by
  decide

/-! ### Claims about parse_patterns and normalize_pattern -/

theorem dropWhile_idem (p : Char → Bool) (l : List Char) :
    (l.dropWhile p).dropWhile p = l.dropWhile p := by
  cases hh : l.dropWhile p with
  | nil => rfl
  | cons a t =>
    have ha : p a = false := head_dropWhile_false (by rw [hh]; rfl)
    simp [List.dropWhile_cons, ha]

/-- Unfolding equation for parse_patterns with its let inlined. -/
theorem parse_patterns_eq (pat : PatInput) :
    parse_patterns pat =
      (match (splitChar ',' (joinPat pat)).find?
          (fun x => !((pyStrip x).all pyAllowedChar)) with
       | some p => Except.error (PyErr.invalidPattern p)
       | none =>
           Except.ok ((splitChar ',' (joinPat pat)).map normalize_pattern)) :=
  rfl

/-- Unfolding equation for normalize_pattern with its lets inlined. -/
theorem normalize_pattern_eq (q : List Char) :
    normalize_pattern q =
      (if (pyLstrip '/' (pyStrip q)).getLast? = some '/'
       then pyLstrip '/' (pyStrip q) ++ ['*']
       else pyLstrip '/' (pyStrip q)) :=
  rfl

/-- Claim C7 (amended): parse_patterns fails exactly when some
comma-separated token, after stripping, has a character that is
neither Python-alphanumeric (Unicode semantics) nor one of -_./+*;
the raised error names the first such token and no pattern list is
produced; and restricted to ASCII code points the accepted characters
are exactly the class [A-Za-z0-9-_./+*] written in the spec.  The
original claim fails for non-ASCII letters such as é, which Python's
str.isalnum accepts (see the counterexample). -/
theorem c7_validation_amended (pat : PatInput) :
    ((parse_patterns pat).isOk = false ↔
      ∃ p ∈ splitChar ',' (joinPat pat),
        (pyStrip p).all pyAllowedChar = false) ∧
    (∀ p : List Char,
      parse_patterns pat = Except.error (PyErr.invalidPattern p) →
      ∃ pre post, splitChar ',' (joinPat pat) = pre ++ p :: post ∧
        (pyStrip p).all pyAllowedChar = false ∧
        ∀ x ∈ pre, (pyStrip x).all pyAllowedChar = true) ∧
    (∀ c : Char, c.toNat < 128 →
      (pyAllowedChar c = true ↔ specClassChar c = true)) := by
  refine ⟨?_, ?_, ?_⟩
  · cases hf : (splitChar ',' (joinPat pat)).find?
        (fun x => !((pyStrip x).all pyAllowedChar)) with
    | none =>
      have hres : parse_patterns pat =
          Except.ok ((splitChar ',' (joinPat pat)).map normalize_pattern) := by
        rw [parse_patterns_eq, hf]
      rw [hres]
      constructor
      · intro hh
        simp [Except.isOk, Except.toBool] at hh
      · rintro ⟨q, hq, hbad⟩
        have := List.find?_eq_none.mp hf q hq
        simp [hbad] at this
    | some p =>
      have hres : parse_patterns pat = Except.error (PyErr.invalidPattern p) := by
        rw [parse_patterns_eq, hf]
      rw [hres]
      constructor
      · intro _
        refine ⟨p, List.mem_of_find?_eq_some hf, ?_⟩
        have := List.find?_some hf
        simpa using this
      · intro _
        rfl
  · intro p herr
    have hf : (splitChar ',' (joinPat pat)).find?
        (fun x => !((pyStrip x).all pyAllowedChar)) = some p := by
      rw [parse_patterns_eq] at herr
      cases hff : (splitChar ',' (joinPat pat)).find?
          (fun x => !((pyStrip x).all pyAllowedChar)) with
      | none =>
        rw [hff] at herr
        exact absurd herr (by simp)
      | some x =>
        rw [hff] at herr
        injection herr with hx
        injection hx with hx2
        rw [hx2]
    obtain ⟨hbad, pre, post, hsplit, hpre⟩ := List.find?_eq_some.mp hf
    refine ⟨pre, post, hsplit, by simpa using hbad, ?_⟩
    intro x hx
    have := hpre x hx
    simpa using this
  · intro c hc
    have hl : latin1IsAlnum c = false := by
      rw [Bool.eq_false_iff]
      intro hh
      simp only [latin1IsAlnum, Bool.or_eq_true, Bool.and_eq_true,
        decide_eq_true_eq, Bool.not_eq_true', decide_eq_false_iff_not] at hh
      omega
    simp [pyAllowedChar, specClassChar, pyIsAlnum, hl]

/-- Witness for c7_validation_amended: the token a b (with a space)
is rejected, is the whole token list, and nothing precedes it. -/
theorem c7_validation_amended_witness :
    ∃ pre post,
      splitChar ',' (joinPat (PatInput.ofStr (("a b").toList))) =
        pre ++ (("a b").toList) :: post ∧
      (pyStrip (("a b").toList)).all pyAllowedChar = false ∧
      ∀ x ∈ pre, (pyStrip x).all pyAllowedChar = true :=
  (c7_validation_amended (PatInput.ofStr (("a b").toList))).2.1
    (("a b").toList) (by rfl)

/-- Counterexample to claim C7 as stated: the token é consists of one
character outside [A-Za-z0-9-_./+*], yet validation accepts it,
because Python str.isalnum is Unicode-aware. -/
theorem c7_counterexample :
    (parse_patterns (PatInput.ofStr ['é'])).isOk = true ∧
    specClassChar 'é' = false := by
  decide

/-- Claim C8: normalize_pattern is idempotent on every pattern that
passes validation (its stripped form has only allowed characters). -/
theorem c8_normalize_idempotent (p : List Char)
    (hv : (pyStrip p).all pyAllowedChar = true) :
    normalize_pattern (normalize_pattern p) = normalize_pattern p := by
  have hall : ∀ c ∈ pyStrip p, pyAllowedChar c = true := by
    simpa [List.all_eq_true] using hv
  have htall : ∀ c ∈ pyLstrip '/' (pyStrip p), pyAllowedChar c = true := by
    intro c hc
    refine hall c (List.Sublist.mem hc ?_)
    unfold pyLstrip
    exact List.dropWhile_sublist _
  have hts : ∀ c ∈ pyLstrip '/' (pyStrip p), pyIsSpace c = false :=
    fun c hc => pyAllowedChar_not_space (htall c hc)
  by_cases hlast : (pyLstrip '/' (pyStrip p)).getLast? = some '/'
  · have h1 : normalize_pattern p = pyLstrip '/' (pyStrip p) ++ ['*'] := by
      rw [normalize_pattern_eq, if_pos hlast]
    rw [h1]
    obtain ⟨a, t2, hat⟩ : ∃ a t2, pyLstrip '/' (pyStrip p) = a :: t2 := by
      cases hcc : pyLstrip '/' (pyStrip p) with
      | nil => rw [hcc] at hlast; exact absurd hlast (by simp)
      | cons a t2 => exact ⟨a, t2, rfl⟩
    have ha : (decide (a = '/')) = false := by
      have hat2 := hat
      unfold pyLstrip at hat2
      exact head_dropWhile_false (by rw [hat2]; rfl)
    rw [hat]
    rw [normalize_pattern_eq]
    have hstrip : pyStrip ((a :: t2) ++ ['*']) = (a :: t2) ++ ['*'] := by
      apply pyStrip_eq_self
      intro x hx
      rcases List.mem_append.mp hx with hx | hx
      · exact hts x (by rw [hat]; exact hx)
      · have : x = '*' := by simpa using hx
        subst this; decide
    rw [hstrip]
    have hl : pyLstrip '/' ((a :: t2) ++ ['*']) = (a :: t2) ++ ['*'] := by
      unfold pyLstrip
      simp only [List.cons_append, List.dropWhile_cons, ha]
      simp
    rw [hl]
    have hlast2 : ((a :: t2) ++ ['*']).getLast? = some '*' :=
      List.getLast?_concat _
    rw [if_neg (by rw [hlast2]; simp)]
  · have h1 : normalize_pattern p = pyLstrip '/' (pyStrip p) := by
      rw [normalize_pattern_eq, if_neg hlast]
    rw [h1]
    rw [normalize_pattern_eq]
    have hstrip : pyStrip (pyLstrip '/' (pyStrip p)) = pyLstrip '/' (pyStrip p) :=
      pyStrip_eq_self hts
    rw [hstrip]
    have hl : pyLstrip '/' (pyLstrip '/' (pyStrip p)) = pyLstrip '/' (pyStrip p) := by
      unfold pyLstrip
      exact dropWhile_idem _ _
    rw [hl, if_neg hlast]

/-- Witness for c8_normalize_idempotent at the pattern /build/ (valid,
with a leading and a trailing slash). -/
theorem c8_normalize_idempotent_witness :
    (pyStrip (("/build/").toList)).all pyAllowedChar = true ∧
    normalize_pattern (normalize_pattern (("/build/").toList)) =
      normalize_pattern (("/build/").toList) :=
  ⟨by decide, c8_normalize_idempotent (("/build/").toList) (by decide)⟩

/-! ### Claim about parse_gitignore -/

theorem gitignore_foldl (env : Env) (path : List Char) :
    ∀ (lines : List (List Char)) (acc : List (List Char)),
      lines.foldl
        (fun acc line0 =>
          let line := pyStrip line0
          if !line.isEmpty && !(line.head? = some '#') then
            acc ++
              [if env.fs_isdir (pyJoin (pyDirname path) line) then
                 pyRstrip '/' line ++ ['/']
               else line]
          else acc)
        acc
      = acc ++ lines.filterMap (gitignoreLineSpec env path) := by
  intro lines
  induction lines with
  | nil => intro acc; simp
  | cons x xs ih =>
    intro acc
    rw [List.foldl_cons, List.filterMap_cons]
    by_cases h1 : (pyStrip x).isEmpty = true
    · rw [ih]
      simp [gitignoreLineSpec, h1]
    · by_cases h2 : (pyStrip x).head? = some '#'
      · rw [ih]
        simp [gitignoreLineSpec, h1, h2]
      · rw [ih]
        simp [gitignoreLineSpec, h1, h2]

/-- Claim C9: parse_gitignore yields the empty list when the file does
not exist, and otherwise yields, in file order, exactly the stripped
non-blank non-comment lines, where a line naming an existing directory
(relative to the ignore file's directory, via os.path.join) is given a
trailing slash; and the directory-marking rewrite always leaves
exactly one trailing slash. -/
theorem c9_parse_gitignore_contract (env : Env) (path : List Char) :
    (parse_gitignore env path =
      if env.fs_exists path then
        (env.fs_lines path).filterMap (gitignoreLineSpec env path)
      else []) ∧
    ∀ l : List Char,
      ((pyRstrip '/' l ++ ['/']).reverse.takeWhile
          (fun c => c = '/')).length = 1 := by
  constructor
  · unfold parse_gitignore
    by_cases he : env.fs_exists path
    · rw [if_pos he, if_pos he]
      rw [gitignore_foldl env path (env.fs_lines path) []]
      simp
    · rw [if_neg he, if_neg he]
  · intro l
    have hrev : (pyRstrip '/' l ++ ['/']).reverse =
        '/' :: (pyRstrip '/' l).reverse := by
      rw [List.reverse_append]
      rfl
    rw [hrev, List.takeWhile_cons]
    have hemp : ((pyRstrip '/' l).reverse).takeWhile
        (fun c => decide (c = '/')) = [] := by
      unfold pyRstrip
      rw [List.reverse_reverse]
      cases hh : l.reverse.dropWhile (fun x => decide (x = '/')) with
      | nil => rfl
      | cons a t =>
        have ha := head_dropWhile_false (l := l.reverse) (by rw [hh]; rfl)
        rw [List.takeWhile_cons, if_neg (by simp [ha])]
    rw [if_pos (by simp)]
    rw [hemp]
    rfl

/-! ### Heap lemmas -/

theorem heapGet_set_self {h : Heap} {r : Nat} (hr : r < h.length)
    (v : List (List Char)) : heapGet (heapSet h r v) r = v := by
  unfold heapGet heapSet
  rw [List.getD_eq_getElem?_getD, List.getElem?_set_self hr]
  rfl

theorem heapGet_set_ne {h : Heap} {r r' : Nat} (hne : r ≠ r')
    (v : List (List Char)) : heapGet (heapSet h r v) r' = heapGet h r' := by
  unfold heapGet heapSet
  rw [List.getD_eq_getElem?_getD, List.getD_eq_getElem?_getD,
    List.getElem?_set_ne hne]

theorem heapGet_concat {h : Heap} {r : Nat} (hr : r < h.length)
    (v : List (List Char)) : heapGet (h ++ [v]) r = heapGet h r := by
  unfold heapGet
  exact List.getD_append _ _ _ _ hr

theorem heapGet_concat_len (h : Heap) (v : List (List Char)) :
    heapGet (h ++ [v]) h.length = v := by
  unfold heapGet
  rw [List.getD_eq_getElem?_getD, List.getElem?_append_right (Nat.le_refl _)]
  simp

theorem length_heapExtend (h : Heap) (r : Nat) (xs : List (List Char)) :
    (heapExtend h r xs).length = h.length :=
  List.length_set _ _ _

theorem heapGet_extend_self {h : Heap} {r : Nat} (hr : r < h.length)
    (xs : List (List Char)) :
    heapGet (heapExtend h r xs) r = heapGet h r ++ xs :=
  heapGet_set_self hr _

theorem heapGet_extend_ne {h : Heap} {r r' : Nat} (hne : r ≠ r')
    (xs : List (List Char)) :
    heapGet (heapExtend h r xs) r' = heapGet h r' :=
  heapGet_set_ne hne _

theorem override_cons (h : Heap) (r : Nat) (p : List Char)
    (ps : List (List Char)) :
    override_ignore_patterns h r (p :: ps) =
      override_ignore_patterns
        (if p ∈ heapGet h r then heapSet h r ((heapGet h r).erase p) else h)
        r ps :=
  rfl

theorem length_override (h : Heap) (r : Nat) (inc : List (List Char)) :
    (override_ignore_patterns h r inc).length = h.length := by
  induction inc generalizing h with
  | nil => rfl
  | cons p ps ih =>
    rw [override_cons, ih]
    by_cases hp : p ∈ heapGet h r
    · rw [if_pos hp]
      exact List.length_set _ _ _
    · rw [if_neg hp]

theorem heapGet_override_ne {h : Heap} {r r' : Nat} (hne : r ≠ r')
    (inc : List (List Char)) :
    heapGet (override_ignore_patterns h r inc) r' = heapGet h r' := by
  induction inc generalizing h with
  | nil => rfl
  | cons p ps ih =>
    rw [override_cons, ih]
    by_cases hp : p ∈ heapGet h r
    · rw [if_pos hp]
      exact heapGet_set_ne hne _
    · rw [if_neg hp]

theorem heapGet_override_self {h : Heap} {r : Nat} (hr : r < h.length)
    (inc : List (List Char)) :
    heapGet (override_ignore_patterns h r inc) r =
      removeFirstEach (heapGet h r) inc := by
  induction inc generalizing h with
  | nil => rfl
  | cons p ps ih =>
    rw [override_cons,
      show removeFirstEach (heapGet h r) (p :: ps) =
        removeFirstEach
          (if p ∈ heapGet h r then (heapGet h r).erase p else heapGet h r) ps
        from rfl]
    by_cases hp : p ∈ heapGet h r
    · rw [if_pos hp, if_pos hp,
        ih (h := heapSet h r ((heapGet h r).erase p))
          (by rw [show (heapSet h r ((heapGet h r).erase p)).length = h.length
                from List.length_set _ _ _]; exact hr),
        heapGet_set_self hr]
    · rw [if_neg hp, if_neg hp, ih hr]

theorem inclStep_frame (base : Query) (msz : Int) (copt : Option PatInput)
    {fref : Nat} {h : Heap} {r : Nat} (hne : r ≠ fref) :
    heapGet ((inclStep base msz copt fref h).1) r = heapGet h r := by
  unfold inclStep
  by_cases hc : pyTruthy copt
  · rw [if_pos hc]
    cases hp : parse_patterns (patVal copt) with
    | error e => rfl
    | ok incs => exact heapGet_override_ne (Ne.symm hne) incs
  · rw [if_neg hc]

theorem patternStep_frame (env : Env) (base : Query) (msz : Int)
    (iopt copt : Option PatInput) {h : Heap} {dref : Nat}
    (hd : dref < h.length) :
    heapGet ((patternStep env h dref base msz iopt copt).1) dref =
      heapGet h dref := by
  have hne : dref ≠ h.length := Nat.ne_of_lt hd
  simp only [patternStep, heapAlloc]
  by_cases hex : env.fs_exists (pyJoin base.local_path gitignoreName)
  · rw [if_pos hex]
    have hg1 : heapGet (heapExtend (h ++ [heapGet h dref]) h.length
        (parse_gitignore env (pyJoin base.local_path gitignoreName))) dref =
        heapGet h dref := by
      rw [heapGet_extend_ne (Ne.symm hne), heapGet_concat hd]
    by_cases ht : pyTruthy iopt
    · rw [if_pos ht]
      cases hp : parse_patterns (patVal iopt) with
      | error e => exact hg1
      | ok igns =>
        rw [inclStep_frame _ _ _ hne, heapGet_extend_ne (Ne.symm hne)]
        exact hg1
    · rw [if_neg ht, inclStep_frame _ _ _ hne]
      exact hg1
  · rw [if_neg hex]
    have hg1 : heapGet (h ++ [heapGet h dref]) dref = heapGet h dref :=
      heapGet_concat hd _
    by_cases ht : pyTruthy iopt
    · rw [if_pos ht]
      cases hp : parse_patterns (patVal iopt) with
      | error e => exact hg1
      | ok igns =>
        rw [inclStep_frame _ _ _ hne, heapGet_extend_ne (Ne.symm hne)]
        exact hg1
    · rw [if_neg ht, inclStep_frame _ _ _ hne]
      exact hg1

/-! ### Claims about parse_query -/

/-- Claim C10: the global default list is never mutated by parse_query.
Its reference dref is distinct from the fresh reference that list.copy
allocates, and every in-place extend and remove runs on the fresh
object, so the object at dref holds the same contents after any call,
with any combination of inputs, whether the call returns or raises. -/
theorem c10_defaults_unchanged (env : Env) (h : Heap) (dref : Nat)
    (fw : Bool) (src uid : List Char) (msz : Int)
    (iopt copt : Option PatInput) (hd : dref < h.length) :
    heapGet ((parse_query env h dref fw src uid msz iopt copt).1) dref =
      heapGet h dref := by
  unfold parse_query
  cases hl : (if fw then parse_url uid src
              else Except.ok (parse_path env uid src) : Except PyErr Query) with
  | error e => rfl
  | ok base => exact patternStep_frame env base msz iopt copt hd

/-- Witness for c10_defaults_unchanged: a concrete call (remote, with
ignore and include inputs) leaves DEFAULT_IGNORE_PATTERNS intact. -/
theorem c10_defaults_unchanged_witness :
    heapGet ((parse_query env0 [DEFAULT_IGNORE_PATTERNS] 0 true
        (("github.com/a/b").toList) (("u1").toList) 5
        (some (PatInput.ofStr (("x.py").toList)))
        (some (PatInput.ofStr (("*.log").toList)))).1) 0 =
      heapGet [DEFAULT_IGNORE_PATTERNS] 0 :=
  c10_defaults_unchanged env0 [DEFAULT_IGNORE_PATTERNS] 0 true
    (("github.com/a/b").toList) (("u1").toList) 5
    (some (PatInput.ofStr (("x.py").toList)))
    (some (PatInput.ofStr (("*.log").toList))) (by simp)

/-- Computation of patternStep when neither pattern input is given:
only the copy and the optional gitignore extension happen, and the
call always succeeds. -/
theorem patternStep_none_none (env : Env) (h : Heap) (dref : Nat)
    (base : Query) (msz : Int) :
    patternStep env h dref base msz none none =
      (let h2 :=
        if env.fs_exists (pyJoin base.local_path gitignoreName) then
          heapExtend (h ++ [heapGet h dref]) h.length
            (parse_gitignore env (pyJoin base.local_path gitignoreName))
        else h ++ [heapGet h dref]
       (h2, Except.ok
         { base with max_file_size := msz,
                     ignore_patterns := heapGet h2 h.length,
                     include_patterns := PyIncludeVal.vNone })) :=
  rfl

/-- Claim C1 (amended): the effective parse_query (the second,
superseding definition) performs no content-based dispatch — with
from_web false every source string, of any shape, is parsed by
parse_path, always succeeding with url unset and local_path from
abspath.  The content-based rule of the claim (remote iff the string
starts with https:// or contains github.com) holds only of the first,
superseded definition, here parse_query_v1_locator. -/
theorem c1_dispatch_amended :
    (∀ (env : Env) (h : Heap) (dref : Nat) (src uid : List Char) (msz : Int),
      ∃ q : Query,
        (parse_query env h dref false src uid msz none none).2 =
          Except.ok q ∧
        q.url = none ∧ q.local_path = env.abspath src) ∧
    (∀ (env : Env) (uid src : List Char),
      parse_query_v1_locator env uid false src =
        if httpsL.isPrefixOf src || pyInStr (("github.com").toList) src then
          parse_url uid src
        else Except.ok (parse_path env uid src)) := by
  constructor
  · intro env h dref src uid msz
    have hps : parse_query env h dref false src uid msz none none =
        patternStep env h dref (parse_path env uid src) msz none none := rfl
    rw [hps, patternStep_none_none]
    exact ⟨_, rfl, rfl, rfl⟩
  · intro env uid src
    rfl

/-- Counterexample to claim C1 as stated: with from_web false, the
source https://github.com/foo/bar starts with https:// yet the
effective parse_query parses it with parse_path — the returned
descriptor has no url, instead of the remote fields the claim
requires. -/
theorem c1_counterexample :
    ((parse_query env0 [DEFAULT_IGNORE_PATTERNS] 0 false
        (("https://github.com/foo/bar").toList) (("u1").toList) 10
        none none).2.toOption.map Query.url) = some none ∧
    httpsL.isPrefixOf (("https://github.com/foo/bar").toList) = true := by
  constructor
  · rfl
  · decide

theorem inclStep_spec (base : Query) (msz : Int) (copt : Option PatInput)
    {fref : Nat} {hcur h' : Heap} {q : Query}
    (hfl : fref < hcur.length)
    (hok : inclStep base msz copt fref hcur = (h', Except.ok q)) :
    q.local_path = base.local_path ∧
    (∀ C : List (List Char), pyTruthy copt = true →
       parse_patterns (patVal copt) = Except.ok C →
       q.ignore_patterns = removeFirstEach (heapGet hcur fref) C ∧
       q.include_patterns = PyIncludeVal.vList C) ∧
    (copt = none →
       q.ignore_patterns = heapGet hcur fref ∧
       q.include_patterns = PyIncludeVal.vNone) := by
  unfold inclStep at hok
  by_cases hc : pyTruthy copt
  · rw [if_pos hc] at hok
    cases hp : parse_patterns (patVal copt) with
    | error e =>
      rw [hp] at hok
      have := congrArg Prod.snd hok
      exact absurd this (by simp)
    | ok incs =>
      rw [hp] at hok
      have hq := congrArg Prod.snd hok
      simp only [] at hq
      injection hq with hq
      subst hq
      refine ⟨rfl, ?_, ?_⟩
      · intro C hct hC
        injection hC with hC
        subst hC
        exact ⟨heapGet_override_self hfl _, rfl⟩
      · intro hcn
        subst hcn
        exact absurd hc (by simp [pyTruthy])
  · rw [if_neg hc] at hok
    have hq := congrArg Prod.snd hok
    simp only [] at hq
    injection hq with hq
    subst hq
    refine ⟨rfl, ?_, ?_⟩
    · intro C hct hC
      exact absurd hct hc
    · intro hcn
      subst hcn
      exact ⟨rfl, rfl⟩

theorem patternStep_tail_spec (base : Query) (msz : Int)
    (iopt copt : Option PatInput) {h2 h' : Heap} {fref : Nat} {q : Query}
    (hl2 : fref < h2.length) (I : List (List Char))
    (hok : (if pyTruthy iopt then
              match parse_patterns (patVal iopt) with
              | Except.error e => (h2, Except.error e)
              | Except.ok igns =>
                  inclStep base msz copt fref (heapExtend h2 fref igns)
            else inclStep base msz copt fref h2) = (h', Except.ok q))
    (hI : if pyTruthy iopt then parse_patterns (patVal iopt) = Except.ok I
          else I = []) :
    q.local_path = base.local_path ∧
    (∀ C : List (List Char), pyTruthy copt = true →
       parse_patterns (patVal copt) = Except.ok C →
       q.ignore_patterns = removeFirstEach (heapGet h2 fref ++ I) C ∧
       q.include_patterns = PyIncludeVal.vList C) ∧
    (copt = none →
       q.ignore_patterns = heapGet h2 fref ++ I ∧
       q.include_patterns = PyIncludeVal.vNone) := by
  by_cases ht : pyTruthy iopt
  · rw [if_pos ht] at hok
    rw [if_pos ht] at hI
    rw [hI] at hok
    have hres := inclStep_spec base msz copt
      (by rw [length_heapExtend]; exact hl2) hok
    rw [heapGet_extend_self hl2] at hres
    exact hres
  · rw [if_neg ht] at hok
    rw [if_neg ht] at hI
    subst hI
    have hres := inclStep_spec base msz copt hl2 hok
    simpa using hres

theorem patternStep_spec (env : Env) (h : Heap) (dref : Nat) (base : Query)
    (msz : Int) (iopt copt : Option PatInput) (h' : Heap) (q : Query)
    (I : List (List Char))
    (hok : patternStep env h dref base msz iopt copt = (h', Except.ok q))
    (hI : if pyTruthy iopt then parse_patterns (patVal iopt) = Except.ok I
          else I = []) :
    q.local_path = base.local_path ∧
    (∀ C : List (List Char), pyTruthy copt = true →
       parse_patterns (patVal copt) = Except.ok C →
       q.ignore_patterns =
         removeFirstEach
           (heapGet h dref ++ gitignoreContribOf env base ++ I) C ∧
       q.include_patterns = PyIncludeVal.vList C) ∧
    (copt = none →
       q.ignore_patterns =
         heapGet h dref ++ gitignoreContribOf env base ++ I ∧
       q.include_patterns = PyIncludeVal.vNone) := by
  simp only [patternStep, heapAlloc] at hok
  by_cases hex : env.fs_exists (pyJoin base.local_path gitignoreName)
  · rw [if_pos hex] at hok
    have hl2 : h.length <
        (heapExtend (h ++ [heapGet h dref]) h.length
          (parse_gitignore env (pyJoin base.local_path gitignoreName))).length := by
      rw [length_heapExtend]
      simp
    have hres := patternStep_tail_spec base msz iopt copt hl2 I hok hI
    have hv2 : heapGet
        (heapExtend (h ++ [heapGet h dref]) h.length
          (parse_gitignore env (pyJoin base.local_path gitignoreName)))
        h.length = heapGet h dref ++ gitignoreContribOf env base := by
      rw [heapGet_extend_self (by simp), heapGet_concat_len]
      unfold gitignoreContribOf
      rw [if_pos hex]
    rw [hv2] at hres
    exact hres
  · rw [if_neg hex] at hok
    have hl2 : h.length < (h ++ [heapGet h dref]).length := by simp
    have hres := patternStep_tail_spec base msz iopt copt hl2 I hok hI
    have hv2 : heapGet (h ++ [heapGet h dref]) h.length =
        heapGet h dref ++ gitignoreContribOf env base := by
      rw [heapGet_concat_len]
      unfold gitignoreContribOf
      rw [if_neg hex]
      simp
    rw [hv2] at hres
    exact hres

/-- Claim C2 (amended): for every accepted combination of inputs, the
ignore_patterns of a descriptor returned by parse_query is the
concatenation defaults ++ G ++ I (defaults as copied from the global
list, G the gitignore contribution, I the validated user ignore
patterns, in source order), from which, for each include pattern in C
in order, the FIRST occurrence of an equal string is removed (Python
list.remove); an entry duplicated in the accumulation loses only one
occurrence per equal include entry, not all (see the counterexample).
When the include input is absent, include_patterns is None and the
ignore list is the unreduced accumulation. -/
theorem c2_override_amended (env : Env) (h : Heap) (dref : Nat) (fw : Bool)
    (src uid : List Char) (msz : Int) (iopt copt : Option PatInput)
    (h' : Heap) (q : Query) (I : List (List Char))
    (hok : parse_query env h dref fw src uid msz iopt copt =
      (h', Except.ok q))
    (hI : if pyTruthy iopt then parse_patterns (patVal iopt) = Except.ok I
          else I = []) :
    (∀ C : List (List Char), pyTruthy copt = true →
       parse_patterns (patVal copt) = Except.ok C →
       q.ignore_patterns =
         removeFirstEach
           (heapGet h dref ++ gitignoreContribOf env q ++ I) C ∧
       q.include_patterns = PyIncludeVal.vList C) ∧
    (copt = none →
       q.ignore_patterns = heapGet h dref ++ gitignoreContribOf env q ++ I ∧
       q.include_patterns = PyIncludeVal.vNone) := by
  unfold parse_query at hok
  cases hl : (if fw then parse_url uid src
              else Except.ok (parse_path env uid src) : Except PyErr Query) with
  | error e =>
    rw [hl] at hok
    have := congrArg Prod.snd hok
    exact absurd this (by simp)
  | ok base =>
    rw [hl] at hok
    have hres := patternStep_spec env h dref base msz iopt copt h' q I hok hI
    have hgc : gitignoreContribOf env q = gitignoreContribOf env base := by
      unfold gitignoreContribOf
      rw [hres.1]
    rw [hgc]
    exact ⟨hres.2.1, hres.2.2⟩

/-- Call of parse_query used in the c2 witness. -/
def c2call : Heap × Except PyErr Query :=
  parse_query env0 [DEFAULT_IGNORE_PATTERNS] 0 false (("a/b").toList)
    (("u1").toList) 7 (some (PatInput.ofStr (("x.py").toList)))
    (some (PatInput.ofStr (("*.log").toList)))

/-- Query returned by the call in the c2 witness. -/
def c2q : Query := c2call.2.toOption.getD emptyQuery

/-- Witness for c2_override_amended at a concrete call with ignore
input x.py and include input *.log. -/
theorem c2_override_amended_witness :
    c2q.ignore_patterns =
      removeFirstEach
        (heapGet [DEFAULT_IGNORE_PATTERNS] 0 ++ gitignoreContribOf env0 c2q ++
          [(("x.py").toList)])
        [(("*.log").toList)] ∧
    c2q.include_patterns = PyIncludeVal.vList [(("*.log").toList)] :=
  (c2_override_amended env0 [DEFAULT_IGNORE_PATTERNS] 0 false
    (("a/b").toList) (("u1").toList) 7
    (some (PatInput.ofStr (("x.py").toList)))
    (some (PatInput.ofStr (("*.log").toList)))
    c2call.1 c2q [(("x.py").toList)] (by rfl) (by rfl)).1
    [(("*.log").toList)] (by rfl) (by rfl)

/-- Counterexample to claim C2 as stated: with include input *.swp and
no gitignore or ignore input, the returned ignore list still contains
one occurrence of *.swp (the defaults list the code copies contains it
twice and list.remove removes only the first), while the claim's
exact-match removal of every occurrence would leave zero. -/
theorem c2_counterexample :
    ((parse_query env0 [DEFAULT_IGNORE_PATTERNS] 0 false (("a/b").toList)
        (("u1").toList) 7 none
        (some (PatInput.ofStr (("*.swp").toList)))).2.toOption.map
      (fun r => r.ignore_patterns.count (("*.swp").toList))) = some 1 ∧
    (specResolvedIgnore DEFAULT_IGNORE_PATTERNS
        [(("*.swp").toList)]).count (("*.swp").toList) = 0 := by
  constructor
  · rfl
  · rfl
